import Mathlib

/-
Verification of the ntmg data-management library (src/ntmg/init module).

The library stores named numpy arrays in a DatasetDict (one split) and a
mapping from split names to DatasetDicts in a Dataset.  Arrays are modelled
as lists over a scalar type; numpy fancy indexing, the Python substring
test, dict comprehensions over fallible operations, and the raised Python
exceptions (KeyError, IndexError, TypeError, AttributeError and the
AttributeError carrying the length-mismatch message) are embedded
explicitly.  Real numbers model the floating-point statistics in
Dataset.normalise.
-/

namespace Ntmg

/-- Errors raised by the embedded operations, mirroring the Python
exceptions that the source can raise. -/
inductive NpError where
  | lenMismatch (field : String) (got : Nat) (expected : Nat)
  | keyError (key : String)
  | typeError
  | indexError
  | attributeError
  deriving DecidableEq

instance {ε α : Type} [DecidableEq ε] [DecidableEq α] : DecidableEq (Except ε α) :=
  fun x y =>
    match x, y with
    | .ok a, .ok b =>
      if h : a = b then .isTrue (congrArg Except.ok h)
      else .isFalse (fun hh => h (Except.ok.inj hh))
    | .error e, .error f =>
      if h : e = f then .isTrue (congrArg Except.error h)
      else .isFalse (fun hh => h (Except.error.inj hh))
    | .ok _, .error _ => .isFalse (fun hh => Except.noConfusion hh)
    | .error _, .ok _ => .isFalse (fun hh => Except.noConfusion hh)

/-- Python dict lookup on an insertion-ordered association list. -/
def lookupKey (a : String) : List (String × β) → Option β
  | [] => none
  | kv :: rest => if kv.1 = a then some kv.2 else lookupKey a rest

/-- Dict comprehension over a fallible body: the first error wins,
otherwise the list of results is returned in order. -/
def exceptMap (f : β → Except NpError γ) : List β → Except NpError (List γ)
  | [] => .ok []
  | b :: bs =>
    match f b with
    | .error e => .error e
    | .ok c =>
      match exceptMap f bs with
      | .error e => .error e
      | .ok cs => .ok (c :: cs)

/-- Whether the list n occurs as a contiguous block at the front of the
second list. -/
def isPre : List Char → List Char → Bool
  | [], _ => true
  | _ :: _, [] => false
  | a :: as, b :: bs => a == b && isPre as bs

/-- Whether the list n occurs as a contiguous block anywhere in hay. -/
def hasSubList (n : List Char) : List Char → Bool
  | [] => n.isEmpty
  | c :: t => isPre n (c :: t) || hasSubList n t

/-- The Python substring test needle in hay. -/
def strIn (needle hay : String) : Bool :=
  hasSubList needle.toList hay.toList

/-- Result of numpy indexing: a scalar (0-dimensional result) or an array. -/
inductive NpEntry (α : Type) where
  | scalar (x : α)
  | arr (xs : List α)
  deriving DecidableEq

/-- An index accepted by numpy 1-dimensional fancy indexing: a single
integer, a sequence of integers, or a boolean mask. -/
inductive Index where
  | scalar (i : Int)
  | seq (is : List Int)
  | mask (bs : List Bool)
  deriving DecidableEq

/-- Resolve a possibly negative numpy integer index against a length. -/
def resolveIdx (n : Nat) (i : Int) : Option Nat :=
  let j := if i < 0 then i + n else i
  if 0 ≤ j ∧ j < n then some j.toNat else none

/-- Sequence version of resolveIdx combined with element access. -/
def optSelect (v : List α) : List Int → Option (List α)
  | [] => some []
  | i :: rest =>
    match (resolveIdx v.length i).bind (fun j => v[j]?) with
    | none => none
    | some x =>
      match optSelect v rest with
      | none => none
      | some xs => some (x :: xs)

/-- numpy indexing of a 1-dimensional array by an Index value: a scalar
index yields a scalar element, a sequence of integers yields the elements
at those positions, and a boolean mask of matching length yields the
elements at the true positions; anything else is an IndexError. -/
def npIndex (v : List α) : Index → Except NpError (NpEntry α)
  | .scalar i =>
    match (resolveIdx v.length i).bind (fun j => v[j]?) with
    | some x => .ok (.scalar x)
    | none => .error .indexError
  | .seq l =>
    match optSelect v l with
    | some xs => .ok (.arr xs)
    | none => .error .indexError
  | .mask bs =>
    if bs.length = v.length then
      .ok (.arr ((v.zip bs).filterMap (fun xb => if xb.2 then some xb.1 else none)))
    else .error .indexError

/-- Python len() applied to a numpy indexing result: a scalar has no
length, so len raises a TypeError on it. -/
def npLen : NpEntry α → Except NpError Nat
  | .scalar _ => .error .typeError
  | .arr xs => .ok xs.length

/-- The array stored for an entry; on a scalar this is never reached by a
successful construction, since npLen fails on scalars first. -/
def entryArr : NpEntry α → List α
  | .scalar x => [x]
  | .arr xs => xs

/-- One split of a dataset: source class DatasetDict.  data is the stored
insertion-ordered dict of arrays, length the cached length attribute set by
the constructor. -/
structure DatasetDict (α : Type) where
  data : List (String × List α)
  length : Nat
  deriving DecidableEq

/-- The validation loop of DatasetDict.init: length starts at 0; a field
seen while length is 0 overwrites length with its own len; afterwards a
field whose len differs from length raises the mismatch error naming the
field, its length and the expected length.  len itself raises a TypeError
on a scalar entry. -/
def initLoop : List (String × NpEntry α) → Nat → Except NpError Nat
  | [], len => .ok len
  | kv :: rest, len =>
    match npLen kv.2 with
    | .error e => .error e
    | .ok n =>
      if len = 0 then initLoop rest n
      else if len ≠ n then .error (.lenMismatch kv.1 n len)
      else initLoop rest len

/-- DatasetDict constructor on arbitrary entries (as produced by a select
comprehension): stores the entries and runs the validation loop to compute
the cached length. -/
def DatasetDict.init (entries : List (String × NpEntry α)) :
    Except NpError (DatasetDict α) :=
  match initLoop entries 0 with
  | .ok n => .ok ⟨entries.map (fun kv => (kv.1, entryArr kv.2)), n⟩
  | .error e => .error e

/-- DatasetDict constructor on a plain mapping from names to arrays, the
form used by callers. -/
def initRaw (m : List (String × List α)) : Except NpError (DatasetDict α) :=
  DatasetDict.init (m.map (fun kv => (kv.1, NpEntry.arr kv.2)))

/-- DatasetDict.select: index every field with the same index, then build a
new DatasetDict from the results through the constructor. -/
def DatasetDict.select (d : DatasetDict α) (idx : Index) :
    Except NpError (DatasetDict α) :=
  match exceptMap (fun kv => (npIndex kv.2 idx).map (fun e => (kv.1, e))) d.data with
  | .ok entries => DatasetDict.init entries
  | .error e => .error e

/-- DatasetDict.map: replaces the stored mapping wholesale with the result
of the function; the cached length is not recomputed. -/
def DatasetDict.mapData (d : DatasetDict α)
    (f : List (String × List α) → List (String × List α)) : DatasetDict α :=
  { d with data := f d.data }

/-- DatasetDict.normalise: every field whose name contains the substring X
is replaced by (value - mean) / std elementwise; other fields are left
as they are; the cached length is untouched. -/
def DatasetDict.normalise [Sub α] [Div α] (d : DatasetDict α) (mean std : α) :
    DatasetDict α :=
  { d with
    data := d.data.map (fun kv =>
      if strIn "X" kv.1 then (kv.1, kv.2.map (fun x => (x - mean) / std)) else kv) }

/-- DatasetDict length operation: Python len reads the field literally
named X and raises a KeyError when it is absent. -/
def DatasetDict.size (d : DatasetDict α) : Except NpError Nat :=
  match lookupKey "X" d.data with
  | some v => .ok v.length
  | none => .error (.keyError "X")

/-- A value of the dict handed to the Dataset constructor: either an
already built DatasetDict or a raw mapping of arrays. -/
inductive SplitVal (α : Type) where
  | record (d : DatasetDict α)
  | raw (m : List (String × List α))
  deriving DecidableEq

/-- The isinstance check of the Dataset constructor. -/
def isRecord : SplitVal α → Bool
  | .record _ => true
  | .raw _ => false

/-- Extraction used in the all-records branch; the raw case is unreachable
there because the branch is guarded by isRecord on every value. -/
def asRecord : SplitVal α → DatasetDict α
  | .record d => d
  | .raw _ => ⟨[], 0⟩

/-- Wrapping one value through the DatasetDict constructor in the else
branch: a raw mapping is validated as usual, while a DatasetDict value
makes the constructor loop iterate over a non-dict and fail with an
AttributeError. -/
def wrapVal : SplitVal α → Except NpError (DatasetDict α)
  | .record _ => .error .attributeError
  | .raw m => initRaw m

/-- A whole dataset: source class Dataset, a mapping from split names to
DatasetDicts. -/
structure Dataset (α : Type) where
  data : List (String × DatasetDict α)
  deriving DecidableEq

/-- Dataset constructor: if every value is already a DatasetDict the dict
is stored as is; otherwise every value is wrapped through the DatasetDict
constructor. -/
def Dataset.init (input : List (String × SplitVal α)) :
    Except NpError (Dataset α) :=
  if input.all (fun kv => isRecord kv.2) then
    .ok ⟨input.map (fun kv => (kv.1, asRecord kv.2))⟩
  else
    match exceptMap (fun kv => (wrapVal kv.2).map (fun d => (kv.1, d))) input with
    | .ok pairs => .ok ⟨pairs⟩
    | .error e => .error e

/-- Dataset.select: look up each split named in the index dict, select on
it, and build a new Dataset from the resulting dict of DatasetDicts via
the Dataset constructor. -/
def Dataset.select (ds : Dataset α) (idxDict : List (String × Index)) :
    Except NpError (Dataset α) :=
  match exceptMap (fun ki =>
      match lookupKey ki.1 ds.data with
      | some r => (r.select ki.2).map (fun r2 => (ki.1, r2))
      | none => .error (NpError.keyError ki.1)) idxDict with
  | .ok pairs => Dataset.init (pairs.map (fun p => (p.1, SplitVal.record p.2)))
  | .error e => .error e

/-- numpy mean of a 1-dimensional array. -/
noncomputable def npMean (xs : List ℝ) : ℝ := xs.sum / xs.length

/-- numpy std of a 1-dimensional array: the square root of the mean of the
squared deviations from the mean. -/
noncomputable def npStd (xs : List ℝ) : ℝ :=
  Real.sqrt (npMean (xs.map (fun x => (x - npMean xs) ^ 2)))

/-- Dataset.normalise: reads the X field of the train split, takes its mean
and standard deviation, and rebuilds the split dict by normalising every
split with those two statistics; a missing train split or missing X field
raises a KeyError. -/
noncomputable def Dataset.normalise (ds : Dataset ℝ) : Except NpError (Dataset ℝ) :=
  match lookupKey "train" ds.data with
  | none => .error (.keyError "train")
  | some tr =>
    match lookupKey "X" tr.data with
    | none => .error (.keyError "X")
    | some xs =>
      .ok ⟨ds.data.map (fun kv => (kv.1, kv.2.normalise (npMean xs) (npStd xs)))⟩

/-- First nonzero value in a list of lengths, 0 when there is none: the
value the constructor loop leaves in the cached length on success. -/
def firstNonzero : List Nat → Nat
  | [] => 0
  | n :: rest => if n = 0 then firstNonzero rest else n

/-- The lengths of the arrays of a raw mapping, in insertion order. -/
def lens (m : List (String × List α)) : List Nat :=
  m.map (fun kv => kv.2.length)

/-- Number of entries a numpy index produces: the length of an integer
sequence, the number of true positions of a boolean mask; a scalar index
produces no array at all. -/
def idxCount : Index → Nat
  | .scalar _ => 0
  | .seq l => l.length
  | .mask bs => bs.count true

/-- The fields remaining after the leading zero-length fields, the ones the
validation loop actually compares against the first nonzero length. -/
def dropZeroFields (m : List (String × List α)) : List (String × List α) :=
  m.dropWhile (fun kv => kv.2.length == 0)

/-- Concrete record used to exercise DatasetDict.normalise. -/
def ddC3 : DatasetDict ℤ := ⟨[("X", [4]), ("Y", [7])], 1⟩

/-- Concrete train split with X values 1, 2, 3. -/
def trC2 : DatasetDict ℝ := ⟨[("X", [1, 2, 3]), ("Y", [0, 1, 0])], 3⟩

/-- Concrete dataset with a train and a test split. -/
def dsC2 : Dataset ℝ :=
  ⟨[("train", trC2), ("test", ⟨[("X", [5, 15]), ("Y", [1, 0])], 2⟩)]⟩

/-- Concrete constructor input mixing a built record with a raw mapping. -/
def inC9 : List (String × SplitVal ℤ) :=
  [("a", SplitVal.record ⟨[("X", [1])], 1⟩), ("b", SplitVal.raw [("X", [2])])]

/-- Concrete record used to exercise DatasetDict.select. -/
def ddC6 : DatasetDict ℤ := ⟨[("X", [1, 2, 3])], 3⟩

/-- Concrete two-field record used to exercise select with a sequence. -/
def ddC6b : DatasetDict ℤ := ⟨[("X", [10, 20, 30]), ("Y", [1, 2, 3])], 3⟩

/-- Concrete dataset used to exercise Dataset.select. -/
def dsC5 : Dataset ℤ :=
  ⟨[("train", ⟨[("X", [1, 2, 3])], 3⟩), ("test", ⟨[("X", [4, 5])], 2⟩)]⟩

/-- Concrete index mapping naming only the test split. -/
def idxC5 : List (String × Index) := [("test", Index.seq [1])]

/-- The dataset Dataset.select builds from dsC5 and idxC5. -/
def resC5 : Dataset ℤ := ⟨[("test", ⟨[("X", [5])], 1⟩)]⟩

section Lemmas

variable {α β γ : Type}

/-- The validation loop accepts a mapping whose arrays all have length 0
and leaves the cached length at 0. -/
theorem initLoop_all_zero (m : List (String × List α))
    (h : ∀ kv ∈ m, kv.2.length = 0) :
    initLoop (m.map (fun kv => (kv.1, NpEntry.arr kv.2))) 0 = .ok 0 := by
  induction m with
  | nil => rfl
  | cons a t ih =>
    have ha : a.2.length = 0 := h a (List.mem_cons_self a t)
    simp only [List.map_cons, initLoop, npLen, ha, if_pos rfl]
    exact ih (fun kv hkv => h kv (List.mem_cons_of_mem a hkv))

/-- Storing arr entries and reading the arrays back is the identity. -/
theorem arrMap_entryArr (m : List (String × List α)) :
    (m.map (fun kv => (kv.1, NpEntry.arr kv.2))).map
      (fun kv => (kv.1, entryArr kv.2)) = m := by
  induction m with
  | nil => rfl
  | cons a t ih =>
    simp only [List.map_cons]
    rw [ih]
    rfl

/-- A successful comprehension means every element succeeded. -/
theorem exceptMap_ok_mem {f : β → Except NpError γ} :
    ∀ {l : List β} {ys : List γ}, exceptMap f l = .ok ys →
      ∀ b ∈ l, ∃ c, f b = .ok c := by
  intro l
  induction l with
  | nil => intro ys _ b hb; exact absurd hb (List.not_mem_nil b)
  | cons a t ih =>
    intro ys h b hb
    cases hfa : f a with
    | error e => rw [exceptMap, hfa] at h; exact absurd h (by simp)
    | ok c =>
      rw [exceptMap, hfa] at h
      cases hrec : exceptMap f t with
      | error e => rw [hrec] at h; exact absurd h (by simp)
      | ok cs =>
        rcases List.mem_cons.mp hb with rfl | hb2
        · exact ⟨c, hfa⟩
        · exact ih hrec b hb2

/-- With a nonzero expected length, the loop accepts exactly the mappings
whose arrays all have that length. -/
theorem initLoop_arr_all (L : Nat) (hL : L ≠ 0) (m : List (String × List α))
    (h : ∀ kv ∈ m, kv.2.length = L) :
    initLoop (m.map (fun kv => (kv.1, NpEntry.arr kv.2))) L = .ok L := by
  induction m with
  | nil => rfl
  | cons a t ih =>
    have ha : a.2.length = L := h a (List.mem_cons_self a t)
    simp only [List.map_cons, initLoop, npLen]
    rw [if_neg hL, if_neg (fun hh : L ≠ a.2.length => hh ha.symm)]
    exact ih (fun kv hkv => h kv (List.mem_cons_of_mem a hkv))

/-- With a nonzero expected length and some array of a different length,
the loop fails with the mismatch error naming an offending field, its
length, and the expected length. -/
theorem initLoop_arr_err (L : Nat) (hL : L ≠ 0) (m : List (String × List α))
    (h : ∃ kv ∈ m, kv.2.length ≠ L) :
    ∃ k v, (k, v) ∈ m ∧ v.length ≠ L ∧
      initLoop (m.map (fun kv => (kv.1, NpEntry.arr kv.2))) L =
        .error (.lenMismatch k v.length L) := by
  induction m with
  | nil => obtain ⟨kv, hkv, _⟩ := h; exact absurd hkv (List.not_mem_nil kv)
  | cons a t ih =>
    by_cases ha : a.2.length = L
    · have ht : ∃ kv ∈ t, kv.2.length ≠ L := by
        obtain ⟨kv, hkv, hne⟩ := h
        rcases List.mem_cons.mp hkv with rfl | hmem
        · exact absurd ha hne
        · exact ⟨kv, hmem, hne⟩
      obtain ⟨k, v, hmem, hne, heq⟩ := ih ht
      refine ⟨k, v, List.mem_cons_of_mem a hmem, hne, ?_⟩
      simp only [List.map_cons, initLoop, npLen]
      rw [if_neg hL, if_neg (fun hh : L ≠ a.2.length => hh ha.symm)]
      exact heq
    · refine ⟨a.1, a.2, List.mem_cons_self a t, ha, ?_⟩
      simp only [List.map_cons, initLoop, npLen]
      rw [if_neg hL, if_pos (fun hh : L = a.2.length => ha hh.symm)]

/-- Starting from the zero sentinel, the loop succeeds and returns the
first nonzero length when every field after the leading zero-length fields
has exactly that length. -/
theorem initLoop_arr_zero_ok (m : List (String × List α))
    (h : ∀ kv ∈ dropZeroFields m, kv.2.length = firstNonzero (lens m)) :
    initLoop (m.map (fun kv => (kv.1, NpEntry.arr kv.2))) 0 =
      .ok (firstNonzero (lens m)) := by
  induction m with
  | nil => rfl
  | cons a t ih =>
    by_cases ha : a.2.length = 0
    · have hd : dropZeroFields (a :: t) = dropZeroFields t := by
        simp [dropZeroFields, List.dropWhile_cons, ha]
      have hf : firstNonzero (lens (a :: t)) = firstNonzero (lens t) := by
        simp [lens, firstNonzero, ha]
      rw [hf] at h ⊢
      rw [hd] at h
      simp only [List.map_cons, initLoop, npLen, ha]
      simp only [if_true]
      exact ih h
    · have hd : dropZeroFields (a :: t) = a :: t := by
        simp [dropZeroFields, List.dropWhile_cons, ha]
      have hf : firstNonzero (lens (a :: t)) = a.2.length := by
        simp [lens, firstNonzero, ha]
      rw [hf] at h ⊢
      rw [hd] at h
      simp only [List.map_cons, initLoop, npLen]
      simp only [if_true]
      exact initLoop_arr_all a.2.length ha t
        (fun kv hkv => h kv (List.mem_cons_of_mem a hkv))

/-- Starting from the zero sentinel, a field after the leading zero-length
fields whose length differs from the first nonzero length makes the loop
fail with the mismatch error carrying that expected length. -/
theorem initLoop_arr_zero_err (m : List (String × List α))
    (h : ∃ kv ∈ dropZeroFields m, kv.2.length ≠ firstNonzero (lens m)) :
    ∃ k v, (k, v) ∈ m ∧ v.length ≠ firstNonzero (lens m) ∧
      initLoop (m.map (fun kv => (kv.1, NpEntry.arr kv.2))) 0 =
        .error (.lenMismatch k v.length (firstNonzero (lens m))) := by
  induction m with
  | nil => simp [dropZeroFields] at h
  | cons a t ih =>
    by_cases ha : a.2.length = 0
    · have hd : dropZeroFields (a :: t) = dropZeroFields t := by
        simp [dropZeroFields, List.dropWhile_cons, ha]
      have hf : firstNonzero (lens (a :: t)) = firstNonzero (lens t) := by
        simp [lens, firstNonzero, ha]
      rw [hf] at h ⊢
      rw [hd] at h
      obtain ⟨k, v, hmem, hne, heq⟩ := ih h
      refine ⟨k, v, List.mem_cons_of_mem a hmem, hne, ?_⟩
      simp only [List.map_cons, initLoop, npLen, ha]
      simp only [if_true]
      exact heq
    · have hd : dropZeroFields (a :: t) = a :: t := by
        simp [dropZeroFields, List.dropWhile_cons, ha]
      have hf : firstNonzero (lens (a :: t)) = a.2.length := by
        simp [lens, firstNonzero, ha]
      rw [hf] at h ⊢
      rw [hd] at h
      have ht : ∃ kv ∈ t, kv.2.length ≠ a.2.length := by
        obtain ⟨kv, hkv, hne⟩ := h
        rcases List.mem_cons.mp hkv with rfl | hmem
        · exact absurd rfl hne
        · exact ⟨kv, hmem, hne⟩
      obtain ⟨k, v, hmem, hne, heq⟩ := initLoop_arr_err a.2.length ha t ht
      refine ⟨k, v, List.mem_cons_of_mem a hmem, hne, ?_⟩
      simp only [List.map_cons, initLoop, npLen]
      simp only [if_true]
      exact heq

/-- Inversion of a successful raw construction: the mapping is stored as
given, the cached length is the first nonzero array length, and every field
after the leading zero-length fields has that length. -/
theorem initRaw_ok_inv (m : List (String × List α)) (d : DatasetDict α)
    (h : initRaw m = .ok d) :
    d.data = m ∧ d.length = firstNonzero (lens m) ∧
      ∀ kv ∈ dropZeroFields m, kv.2.length = firstNonzero (lens m) := by
  by_cases hall : ∀ kv ∈ dropZeroFields m, kv.2.length = firstNonzero (lens m)
  · have hloop := initLoop_arr_zero_ok m hall
    unfold initRaw DatasetDict.init at h
    rw [hloop] at h
    have hd := Except.ok.inj h
    rw [← hd]
    exact ⟨arrMap_entryArr m, rfl, hall⟩
  · push_neg at hall
    obtain ⟨kv, hmem, hne⟩ := hall
    obtain ⟨k, v, _, _, heq⟩ := initLoop_arr_zero_err m ⟨kv, hmem, hne⟩
    unfold initRaw DatasetDict.init at h
    rw [heq] at h
    exact Except.noConfusion h

end Lemmas

/-- Claim C10: constructing a record from an empty mapping, or from a
mapping in which every array has first-dimension length 0, succeeds and
sets the cached length attribute to 0 (with the mapping stored as given). -/
theorem claim_C10 {α : Type} (m : List (String × List α))
    (h : ∀ kv ∈ m, kv.2.length = 0) :
    initRaw m = .ok ⟨m, 0⟩ := by
  unfold initRaw DatasetDict.init
  rw [initLoop_all_zero m h, arrMap_entryArr]

/-- Witness for claim C10 at a concrete all-empty mapping. -/
theorem claim_C10_witness :
    (∀ kv ∈ [("a", ([] : List ℤ)), ("b", [])], kv.2.length = 0) ∧
      initRaw [("a", ([] : List ℤ)), ("b", [])] = .ok ⟨[("a", []), ("b", [])], 0⟩ :=
  ⟨by decide, claim_C10 [("a", []), ("b", [])] (by decide)⟩

/-- Claim C7: the exposed length operation reads the field literally named
X, regardless of the cached length attribute, and raises a key error when
no field named X exists. -/
theorem claim_C7 {α : Type} (d : DatasetDict α) :
    (∀ v, lookupKey "X" d.data = some v → d.size = .ok v.length) ∧
      (lookupKey "X" d.data = none → d.size = .error (.keyError "X")) ∧
      (∀ n, (DatasetDict.mk d.data n).size = d.size) := by
  refine ⟨?_, ?_, ?_⟩
  · intro v hv; simp [DatasetDict.size, hv]
  · intro hn; simp [DatasetDict.size, hn]
  · intro n; rfl

/-- Witness for claim C7 at a concrete record whose cached length disagrees
with the length of the X field. -/
theorem claim_C7_witness :
    lookupKey "X" (DatasetDict.mk [("X", [(5 : ℤ), 6])] 99).data = some [5, 6] ∧
      (DatasetDict.mk [("X", [(5 : ℤ), 6])] 99).size = .ok 2 :=
  ⟨by decide, (claim_C7 (DatasetDict.mk [("X", [(5 : ℤ), 6])] 99)).1 [5, 6] (by decide)⟩

/-- Claim C3: after Record.normalise with mean m and std s, the field at
each position keeps its name; its array becomes (value - m) / s elementwise
when the name contains the substring X and is unchanged otherwise, and the
cached length attribute is untouched. -/
theorem claim_C3 {α : Type} [Sub α] [Div α] (d : DatasetDict α) (m s : α)
    (i : Nat) (k : String) (v : List α) (h : d.data[i]? = some (k, v)) :
    (d.normalise m s).data[i]? =
        some (k, if strIn "X" k then v.map (fun x => (x - m) / s) else v) ∧
      (d.normalise m s).length = d.length := by
  constructor
  · simp only [DatasetDict.normalise, List.getElem?_map, h, Option.map_some']
    cases hX : strIn "X" k <;> simp [hX]
  · rfl

/-- Witness for claim C3: the X field of a concrete record is rescaled and
the Y field position keeps its name and value. -/
theorem claim_C3_witness :
    ddC3.data[0]? = some ("X", [(4 : ℤ)]) ∧
      ((ddC3.normalise 2 2).data[0]? =
          some ("X", if strIn "X" "X" then [(4 : ℤ)].map (fun x => (x - 2) / 2) else [4]) ∧
        (ddC3.normalise 2 2).length = ddC3.length) :=
  ⟨by decide, claim_C3 ddC3 2 2 0 "X" [4] (by decide)⟩

/-- Claim C2: Collection.normalise takes the mean and standard deviation of
the X field of the train split only and normalises every split, train
included, with those two statistics; a missing train split or a missing X
field raises a key error with no fallback. -/
theorem claim_C2 (ds : Dataset ℝ) :
    (∀ tr xs, lookupKey "train" ds.data = some tr →
        lookupKey "X" tr.data = some xs →
        ds.normalise =
          .ok ⟨ds.data.map (fun kv => (kv.1, kv.2.normalise (npMean xs) (npStd xs)))⟩) ∧
      (lookupKey "train" ds.data = none →
        ds.normalise = .error (.keyError "train")) ∧
      (∀ tr, lookupKey "train" ds.data = some tr →
        lookupKey "X" tr.data = none → ds.normalise = .error (.keyError "X")) := by
  refine ⟨?_, ?_, ?_⟩
  · intro tr xs h1 h2; simp [Dataset.normalise, h1, h2]
  · intro h1; simp [Dataset.normalise, h1]
  · intro tr h1 h2; simp [Dataset.normalise, h1, h2]

/-- Witness for claim C2: a concrete dataset with train X values 1, 2, 3
and a test split is normalised everywhere with the train statistics. -/
theorem claim_C2_witness :
    lookupKey "train" dsC2.data = some trC2 ∧
      lookupKey "X" trC2.data = some [1, 2, 3] ∧
      dsC2.normalise =
        .ok ⟨dsC2.data.map (fun kv =>
          (kv.1, kv.2.normalise (npMean [1, 2, 3]) (npStd [1, 2, 3])))⟩ :=
  ⟨rfl, rfl, (claim_C2 dsC2).1 trC2 [1, 2, 3] rfl rfl⟩

/-- Claim C9: constructor input mixing built records with raw field
mappings never produces a collection: the all-records check fails, so every
value is wrapped through the record constructor, and wrapping an existing
record raises an error. -/
theorem claim_C9 {α : Type} (input : List (String × SplitVal α))
    (h1 : ∃ kv ∈ input, isRecord kv.2 = true)
    (h2 : ∃ kv ∈ input, isRecord kv.2 = false) :
    ∃ e, Dataset.init input = .error e := by
  obtain ⟨kv1, hm1, hr1⟩ := h1
  obtain ⟨kv2, hm2, hr2⟩ := h2
  have hall : input.all (fun kv => isRecord kv.2) = false := by
    cases hb : input.all (fun kv => isRecord kv.2)
    · rfl
    · have := List.all_eq_true.mp hb kv2 hm2
      rw [hr2] at this
      exact absurd this (by simp)
  unfold Dataset.init
  rw [hall]
  simp only [Bool.false_eq_true, if_false]
  cases hmap : exceptMap (fun kv => (wrapVal kv.2).map (fun d => (kv.1, d))) input with
  | error e => exact ⟨e, rfl⟩
  | ok pairs =>
    exfalso
    obtain ⟨c, hc⟩ := exceptMap_ok_mem hmap kv1 hm1
    cases hv : kv1.2 with
    | record d => rw [hv] at hc; simp [wrapVal, Except.map] at hc
    | raw mm => rw [hv] at hr1; simp [isRecord] at hr1

/-- Witness for claim C9 at a concrete mixed input. -/
theorem claim_C9_witness :
    (∃ kv ∈ inC9, isRecord kv.2 = true) ∧
      (∃ kv ∈ inC9, isRecord kv.2 = false) ∧
      ∃ e, Dataset.init inC9 = .error e :=
  ⟨by decide, by decide, claim_C9 inC9 (by decide) (by decide)⟩

/-- Claim C1 counterexample: the mapping with a equal to the empty array
and b equal to an array of length 2 has two fields of different lengths,
yet construction succeeds (the zero-length first field leaves the length
sentinel at 0, so the check is skipped) and caches length 2. -/
theorem claim_C1_counterexample :
    initRaw [("a", ([] : List ℤ)), ("b", [1, 2])] =
        .ok ⟨[("a", []), ("b", [1, 2])], 2⟩ ∧
      ([] : List ℤ).length ≠ [(1 : ℤ), 2].length := by
  decide

/-- Claim C4 counterexample: with first field the empty array and second
field of length 3, construction succeeds but the cached length is 3, not
the first-dimension length 0 of the first field in insertion order. -/
theorem claim_C4_counterexample :
    initRaw [("a", ([] : List ℤ)), ("b", [5, 6, 7])] =
        .ok ⟨[("a", []), ("b", [5, 6, 7])], 3⟩ ∧
      (3 : Nat) ≠ ([] : List ℤ).length := by
  decide

/-- Claim C6 counterexample: selecting with the boolean mask true, false,
true of length 3 on a record whose X field has 3 entries yields a field
with 2 entries (the true positions), not len(i) = 3 entries. -/
theorem claim_C6_counterexample :
    ddC6.select (Index.mask [true, false, true]) = .ok ⟨[("X", [1, 3])], 2⟩ ∧
      (2 : Nat) ≠ [true, false, true].length := by
  decide

/-- Claim C1 amended: construction fails iff some field after the leading
zero-length fields has a length different from the first nonzero field
length (so all fields sharing length L succeed with cached length L), and
on failure the error names an offending field, its length, and the expected
first nonzero length. -/
theorem claim_C1_amended {α : Type} (m : List (String × List α)) :
    ((∀ kv ∈ dropZeroFields m, kv.2.length = firstNonzero (lens m)) →
        initRaw m = .ok ⟨m, firstNonzero (lens m)⟩) ∧
      ((∃ kv ∈ dropZeroFields m, kv.2.length ≠ firstNonzero (lens m)) →
        ∃ k v, (k, v) ∈ m ∧ v.length ≠ firstNonzero (lens m) ∧
          initRaw m = .error (.lenMismatch k v.length (firstNonzero (lens m)))) := by
  constructor
  · intro h
    unfold initRaw DatasetDict.init
    rw [initLoop_arr_zero_ok m h, arrMap_entryArr]
  · intro h
    obtain ⟨k, v, hmem, hne, heq⟩ := initLoop_arr_zero_err m h
    refine ⟨k, v, hmem, hne, ?_⟩
    unfold initRaw DatasetDict.init
    rw [heq]

/-- Witness for the amended claim C1: equal-length fields construct
successfully with the shared length cached. -/
theorem claim_C1_amended_witness :
    (∀ kv ∈ dropZeroFields [("X", [(1 : ℤ), 2]), ("Y", [3, 4])],
        kv.2.length = firstNonzero (lens [("X", [(1 : ℤ), 2]), ("Y", [3, 4])])) ∧
      initRaw [("X", [(1 : ℤ), 2]), ("Y", [3, 4])] =
        .ok ⟨[("X", [1, 2]), ("Y", [3, 4])], 2⟩ :=
  ⟨by decide, (claim_C1_amended [("X", [(1 : ℤ), 2]), ("Y", [3, 4])]).1 (by decide)⟩

/-- Claim C4 amended: the cached length of a successfully constructed
record is the first nonzero array length in insertion order (0 when every
array is empty), which matches the first field exactly when the first field
is nonempty or all fields are empty. -/
theorem claim_C4_amended {α : Type} (m : List (String × List α))
    (d : DatasetDict α) (h : initRaw m = .ok d) :
    d.length = firstNonzero (lens m) :=
  (initRaw_ok_inv m d h).2.1

/-- Witness for the amended claim C4 at a mapping whose first field is
empty: the cached length is the later nonzero length 2. -/
theorem claim_C4_amended_witness :
    initRaw [("a", ([] : List ℤ)), ("b", [7, 8])] =
        .ok ⟨[("a", []), ("b", [7, 8])], 2⟩ ∧
      (DatasetDict.mk [("a", ([] : List ℤ)), ("b", [7, 8])] 2).length =
        firstNonzero (lens [("a", ([] : List ℤ)), ("b", [7, 8])]) :=
  ⟨by decide,
    claim_C4_amended [("a", ([] : List ℤ)), ("b", [7, 8])]
      (DatasetDict.mk [("a", ([] : List ℤ)), ("b", [7, 8])] 2) (by decide)⟩

/-- A successful sequence selection returns one element per position. -/
theorem optSelect_length (v : List α) :
    ∀ {l : List Int} {xs : List α}, optSelect v l = some xs →
      xs.length = l.length := by
  intro l
  induction l with
  | nil =>
    intro xs h
    rw [optSelect] at h
    cases h
    rfl
  | cons i rest ih =>
    intro xs h
    rw [optSelect] at h
    cases hx : (resolveIdx v.length i).bind (fun j => v[j]?) with
    | none => rw [hx] at h; exact Option.noConfusion h
    | some x =>
      rw [hx] at h
      cases hr : optSelect v rest with
      | none => rw [hr] at h; exact Option.noConfusion h
      | some ys =>
        rw [hr] at h
        cases h
        simp [ih hr]

/-- A boolean mask of matching length selects one element per true. -/
theorem maskSelect_length :
    ∀ (v : List α) (bs : List Bool), bs.length = v.length →
      ((v.zip bs).filterMap (fun xb => if xb.2 then some xb.1 else none)).length
        = bs.count true := by
  intro v
  induction v with
  | nil =>
    intro bs h
    have hb : bs = [] := List.length_eq_zero.mp h
    subst hb
    rfl
  | cons x xs ih =>
    intro bs h
    cases bs with
    | nil => exact absurd h (by simp)
    | cons b bt =>
      have hlen : bt.length = xs.length := by simpa using h
      cases b <;>
        simp [List.zip_cons_cons, List.filterMap_cons, ih bt hlen, List.count_cons]

/-- Shape of a successful integer-sequence selection. -/
theorem npIndex_seq_shape (v : List α) (l : List Int) (e : NpEntry α)
    (h : npIndex v (.seq l) = .ok e) : ∃ w, e = .arr w ∧ w.length = l.length := by
  rw [npIndex] at h
  cases hx : optSelect v l with
  | none => rw [hx] at h; exact Except.noConfusion h
  | some xs =>
    rw [hx] at h
    cases h
    exact ⟨xs, rfl, optSelect_length v hx⟩

/-- Shape of a successful boolean-mask selection. -/
theorem npIndex_mask_shape (v : List α) (bs : List Bool) (e : NpEntry α)
    (h : npIndex v (.mask bs) = .ok e) :
    ∃ w, e = .arr w ∧ w.length = bs.count true := by
  rw [npIndex] at h
  by_cases hb : bs.length = v.length
  · rw [if_pos hb] at h
    cases h
    exact ⟨_, rfl, maskSelect_length v bs hb⟩
  · rw [if_neg hb] at h
    exact Except.noConfusion h

/-- Shape of a successful scalar selection. -/
theorem npIndex_scalar_shape (v : List α) (z : Int) (e : NpEntry α)
    (h : npIndex v (.scalar z) = .ok e) : ∃ x, e = .scalar x := by
  rw [npIndex] at h
  cases hx : (resolveIdx v.length z).bind (fun j => v[j]?) with
  | none => rw [hx] at h; exact Except.noConfusion h
  | some x => rw [hx] at h; cases h; exact ⟨x, rfl⟩

/-- A loop that succeeds saw no scalar entry, since len fails on those. -/
theorem initLoop_ok_no_scalar :
    ∀ (entries : List (String × NpEntry α)) (L n : Nat),
      initLoop entries L = .ok n → ∀ kv ∈ entries, ∃ xs, kv.2 = .arr xs := by
  intro entries
  induction entries with
  | nil => intro L n _ kv hkv; exact absurd hkv (List.not_mem_nil kv)
  | cons a t ih =>
    intro L n h kv hkv
    cases ha : a.2 with
    | scalar x =>
      simp only [initLoop, ha, npLen] at h
      exact Except.noConfusion h
    | arr xs =>
      rcases List.mem_cons.mp hkv with rfl | hmem
      · exact ⟨xs, ha⟩
      · simp only [initLoop, ha, npLen] at h
        by_cases hL : L = 0
        · rw [if_pos hL] at h; exact ih xs.length n h kv hmem
        · rw [if_neg hL] at h
          by_cases hne : L ≠ xs.length
          · rw [if_pos hne] at h; exact Except.noConfusion h
          · rw [if_neg hne] at h; exact ih L n h kv hmem

/-- Inversion of a successful constructor call on arbitrary entries. -/
theorem init_ok_data (entries : List (String × NpEntry α)) (d : DatasetDict α)
    (h : DatasetDict.init entries = .ok d) :
    d.data = entries.map (fun kv => (kv.1, entryArr kv.2)) ∧
      ∃ n, initLoop entries 0 = .ok n := by
  unfold DatasetDict.init at h
  cases hl : initLoop entries 0 with
  | error e => rw [hl] at h; exact Except.noConfusion h
  | ok n =>
    rw [hl] at h
    cases h
    exact ⟨rfl, n, rfl⟩

/-- A successful comprehension pairs positions one for one with inputs. -/
theorem exceptMap_ok_getElem {f : β → Except NpError γ} :
    ∀ {l : List β} {ys : List γ}, exceptMap f l = .ok ys →
      ys.length = l.length ∧
        ∀ (j : Nat) (a : β), l[j]? = some a →
          ∃ c, ys[j]? = some c ∧ f a = .ok c := by
  intro l
  induction l with
  | nil =>
    intro ys h
    rw [exceptMap] at h
    cases h
    exact ⟨rfl, fun j a ha => absurd ha (by simp)⟩
  | cons b bs ih =>
    intro ys h
    cases hfb : f b with
    | error e => rw [exceptMap, hfb] at h; exact Except.noConfusion h
    | ok c =>
      rw [exceptMap, hfb] at h
      cases hrec : exceptMap f bs with
      | error e => rw [hrec] at h; exact Except.noConfusion h
      | ok cs =>
        rw [hrec] at h
        cases h
        obtain ⟨hlen, hpt⟩ := ih hrec
        refine ⟨by simp [hlen], ?_⟩
        intro j a ha
        cases j with
        | zero =>
          rw [List.getElem?_cons_zero] at ha
          cases ha
          exact ⟨c, by simp, hfb⟩
        | succ jj =>
          rw [List.getElem?_cons_succ] at ha
          obtain ⟨cc, hcy, hfa⟩ := hpt jj a ha
          exact ⟨cc, by simpa using hcy, hfa⟩

/-- Claim C6 amended: on a successful select the field names are preserved
in order; each field gets len(i) entries for an integer-sequence index and
one entry per true mask position for a boolean mask; a scalar index can
only succeed on a record with no fields, since len of a scalar fails during
reconstruction; the original record is left as it was. -/
theorem claim_C6_amended {α : Type} (d : DatasetDict α) (i : Index)
    (r : DatasetDict α) (h : d.select i = .ok r) :
    r.data.map Prod.fst = d.data.map Prod.fst ∧
      (∀ (j : Nat) (k : String) (v : List α), d.data[j]? = some (k, v) →
        ∃ w : List α, r.data[j]? = some (k, w) ∧ w.length = idxCount i) ∧
      (∀ z, i = Index.scalar z → d.data = []) := by
  unfold DatasetDict.select at h
  cases hm : exceptMap (fun kv => (npIndex kv.2 i).map (fun e => (kv.1, e))) d.data with
  | error e => rw [hm] at h; exact Except.noConfusion h
  | ok entries =>
    rw [hm] at h
    obtain ⟨hdata, n, hloop⟩ := init_ok_data entries r h
    obtain ⟨hlen, hpt⟩ := exceptMap_ok_getElem hm
    have hnos := initLoop_ok_no_scalar entries 0 n hloop
    have hP : ∀ (j : Nat) (k : String) (v : List α), d.data[j]? = some (k, v) →
        ∃ e, entries[j]? = some (k, e) ∧ npIndex v i = .ok e := by
      intro j k v hj
      obtain ⟨c, hc, hfc⟩ := hpt j (k, v) hj
      have hfc2 : (npIndex v i).map (fun e => (k, e)) = .ok c := hfc
      cases hni : npIndex v i with
      | error e =>
        rw [hni] at hfc2
        simp [Except.map] at hfc2
      | ok e =>
        rw [hni] at hfc2
        simp only [Except.map] at hfc2
        cases hfc2
        exact ⟨e, hc, rfl⟩
    have h3 : ∀ z, i = Index.scalar z → d.data = [] := by
      intro z hz
      cases hd0 : d.data with
      | nil => rfl
      | cons a t =>
        exfalso
        obtain ⟨e, he, hni⟩ := hP 0 a.1 a.2 (by simp [hd0])
        subst hz
        obtain ⟨x, hx⟩ := npIndex_scalar_shape a.2 z e hni
        have hmem := List.getElem?_mem he
        obtain ⟨xs, hxs⟩ := hnos (a.1, e) hmem
        have hxs2 : e = NpEntry.arr xs := hxs
        rw [hx] at hxs2
        exact NpEntry.noConfusion hxs2
    refine ⟨?_, ?_, h3⟩
    · rw [hdata, List.map_map]
      show entries.map Prod.fst = d.data.map Prod.fst
      apply List.ext_getElem?
      intro j
      rw [List.getElem?_map, List.getElem?_map]
      cases hj : d.data[j]? with
      | none =>
        have hj2 : d.data.length ≤ j := List.getElem?_eq_none_iff.mp hj
        have he : entries[j]? = none := List.getElem?_eq_none (hlen ▸ hj2)
        rw [he]
        rfl
      | some a =>
        obtain ⟨e, he, _⟩ := hP j a.1 a.2 (by rw [hj])
        rw [he]
        rfl
    · intro j k v hj
      obtain ⟨e, he, hni⟩ := hP j k v hj
      have hmem := List.getElem?_mem he
      obtain ⟨xs, hxs⟩ := hnos (k, e) hmem
      have hxs2 : e = NpEntry.arr xs := hxs
      refine ⟨xs, ?_, ?_⟩
      · rw [hdata, List.getElem?_map, he]
        simp [hxs2, entryArr]
      · cases i with
        | scalar z =>
          exfalso
          have hnil := h3 z rfl
          rw [hnil] at hj
          exact absurd hj (by simp)
        | seq l =>
          obtain ⟨w, hw, hwl⟩ := npIndex_seq_shape v l e hni
          rw [hw] at hxs2
          cases hxs2
          exact hwl
        | mask bs =>
          obtain ⟨w, hw, hwl⟩ := npIndex_mask_shape v bs e hni
          rw [hw] at hxs2
          cases hxs2
          exact hwl

/-- Witness for the amended claim C6: selecting positions 2 and 0 from a
two-field record of length 3 keeps both field names with 2 entries each. -/
theorem claim_C6_amended_witness :
    ddC6b.select (Index.seq [2, 0]) =
        .ok ⟨[("X", [(30 : ℤ), 10]), ("Y", [3, 1])], 2⟩ ∧
      (DatasetDict.mk [("X", [(30 : ℤ), 10]), ("Y", [3, 1])] 2).data.map Prod.fst =
        ddC6b.data.map Prod.fst :=
  ⟨by decide,
    (claim_C6_amended ddC6b (Index.seq [2, 0])
      (DatasetDict.mk [("X", [(30 : ℤ), 10]), ("Y", [3, 1])] 2) (by decide)).1⟩

/-- Lookup misses exactly the keys outside the stored key list. -/
theorem lookupKey_none_iff {β : Type} (k : String) (l : List (String × β)) :
    lookupKey k l = none ↔ k ∉ l.map Prod.fst := by
  induction l with
  | nil => simp [lookupKey]
  | cons a t ih =>
    rw [List.map_cons, List.mem_cons, lookupKey]
    by_cases hk : a.1 = k
    · simp [hk]
    · rw [if_neg hk, ih]
      constructor
      · intro h hmem
        rcases hmem with h1 | h2
        · exact hk h1.symm
        · exact h h2
      · intro h hmem
        exact h (Or.inr hmem)

/-- Wrapping records as constructor values and extracting them back is the
identity. -/
theorem recordMap_asRecord (pairs : List (String × DatasetDict α)) :
    (pairs.map (fun p => (p.1, SplitVal.record p.2))).map
      (fun kv => (kv.1, asRecord kv.2)) = pairs := by
  induction pairs with
  | nil => rfl
  | cons a t ih =>
    simp only [List.map_cons]
    rw [ih]
    rfl

/-- The Dataset constructor on an all-records dict stores it unchanged. -/
theorem init_records (pairs : List (String × DatasetDict α)) :
    Dataset.init (pairs.map (fun p => (p.1, SplitVal.record p.2))) = .ok ⟨pairs⟩ := by
  unfold Dataset.init
  rw [if_pos]
  · rw [recordMap_asRecord]
  · rw [List.all_eq_true]
    intro kv hkv
    obtain ⟨p, hp, hpe⟩ := List.mem_map.mp hkv
    rw [← hpe]
    rfl

/-- A successful comprehension whose body preserves a key function yields
results with the same key list. -/
theorem exceptMap_keys {f : β → Except NpError γ} (g : β → String)
    (g2 : γ → String) (hf : ∀ b c, f b = .ok c → g2 c = g b) :
    ∀ {l : List β} {ys : List γ}, exceptMap f l = .ok ys →
      ys.map g2 = l.map g := by
  intro l
  induction l with
  | nil => intro ys h; rw [exceptMap] at h; cases h; rfl
  | cons b bs ih =>
    intro ys h
    cases hfb : f b with
    | error e => rw [exceptMap, hfb] at h; exact Except.noConfusion h
    | ok c =>
      rw [exceptMap, hfb] at h
      cases hrec : exceptMap f bs with
      | error e => rw [hrec] at h; exact Except.noConfusion h
      | ok cs =>
        rw [hrec] at h
        cases h
        simp only [List.map_cons]
        rw [ih hrec, hf b c hfb]

/-- A comprehension whose earlier entries succeed propagates the error of
the first failing entry. -/
theorem exceptMap_append_err {f : β → Except NpError γ} (pre : List β) (a : β)
    (post : List β) (e : NpError) (hpre : ∀ b ∈ pre, ∃ c, f b = .ok c)
    (ha : f a = .error e) :
    exceptMap f (pre ++ a :: post) = .error e := by
  induction pre with
  | nil =>
    rw [List.nil_append, exceptMap, ha]
  | cons p t ih =>
    obtain ⟨c, hc⟩ := hpre p (List.mem_cons_self p t)
    rw [List.cons_append, exceptMap, hc,
      ih (fun b hb => hpre b (List.mem_cons_of_mem p hb))]

/-- Inversion of a successful body of the Dataset.select comprehension. -/
theorem selectFn_ok {α : Type} (ds : Dataset α) (b : String × Index)
    (c : String × DatasetDict α)
    (h : (match lookupKey b.1 ds.data with
          | some r => (r.select b.2).map (fun r2 => (b.1, r2))
          | none => Except.error (NpError.keyError b.1)) = .ok c) :
    ∃ r r2, lookupKey b.1 ds.data = some r ∧ r.select b.2 = .ok r2 ∧
      c = (b.1, r2) := by
  cases hlk : lookupKey b.1 ds.data with
  | none => rw [hlk] at h; exact Except.noConfusion h
  | some r =>
    rw [hlk] at h
    have h2 : (r.select b.2).map (fun r2 => (b.1, r2)) = .ok c := h
    cases hs : DatasetDict.select r b.2 with
    | error e => rw [hs] at h2; simp [Except.map] at h2
    | ok r2 =>
      rw [hs] at h2
      simp only [Except.map] at h2
      cases h2
      exact ⟨r, r2, rfl, hs, rfl⟩

/-- Claim C5: a successful Collection.select returns a new Collection whose
split names are exactly the keys of the index mapping in order, each
mapped to the original split record's select result, with splits omitted
from the mapping excluded; an index-mapping key absent from the Collection
(with the entries before it succeeding) fails the call with the key error
naming it. -/
theorem claim_C5 {α : Type} (ds : Dataset α) (idxDict : List (String × Index)) :
    (∀ d2, ds.select idxDict = .ok d2 →
        d2.data.map Prod.fst = idxDict.map Prod.fst ∧
          (∀ (j : Nat) (k : String) (i : Index), idxDict[j]? = some (k, i) →
            ∃ r r2, lookupKey k ds.data = some r ∧ r.select i = .ok r2 ∧
              d2.data[j]? = some (k, r2)) ∧
          (∀ k, k ∉ idxDict.map Prod.fst → lookupKey k d2.data = none)) ∧
      (∀ pre k i post, idxDict = pre ++ (k, i) :: post →
        lookupKey k ds.data = none →
        (∀ k2 i2, (k2, i2) ∈ pre → ∃ r r2, lookupKey k2 ds.data = some r ∧
          DatasetDict.select r i2 = .ok r2) →
        ds.select idxDict = .error (.keyError k)) := by
  constructor
  · intro d2 h
    unfold Dataset.select at h
    cases hm : exceptMap (fun ki =>
        match lookupKey ki.1 ds.data with
        | some r => (r.select ki.2).map (fun r2 => (ki.1, r2))
        | none => Except.error (NpError.keyError ki.1)) idxDict with
    | error e => rw [hm] at h; exact Except.noConfusion h
    | ok pairs =>
      rw [hm] at h
      have h2 : Dataset.init (pairs.map (fun p => (p.1, SplitVal.record p.2))) =
          .ok d2 := h
      rw [init_records] at h2
      have hd2 : d2 = ⟨pairs⟩ := (Except.ok.inj h2).symm
      subst hd2
      obtain ⟨hlen, hpt⟩ := exceptMap_ok_getElem hm
      have hkeys : pairs.map Prod.fst = idxDict.map Prod.fst := by
        refine exceptMap_keys Prod.fst Prod.fst ?_ hm
        intro b c hbc
        obtain ⟨r, r2, _, _, hc⟩ := selectFn_ok ds b c hbc
        rw [hc]
      refine ⟨hkeys, ?_, ?_⟩
      · intro j k i hj
        obtain ⟨c, hc, hfc⟩ := hpt j (k, i) hj
        obtain ⟨r, r2, hr, hs, hceq⟩ := selectFn_ok ds (k, i) c hfc
        subst hceq
        exact ⟨r, r2, hr, hs, hc⟩
      · intro k hk
        rw [lookupKey_none_iff]
        rw [hkeys]
        exact hk
  · intro pre k i post heq hnone hpre
    subst heq
    unfold Dataset.select
    have hFa : (match lookupKey k ds.data with
        | some r => (r.select i).map (fun r2 => (k, r2))
        | none => Except.error (NpError.keyError k)) =
          Except.error (NpError.keyError k) := by
      rw [hnone]
    have hok : ∀ b ∈ pre, ∃ c, (match lookupKey b.1 ds.data with
        | some r => (r.select b.2).map (fun r2 => (b.1, r2))
        | none => Except.error (NpError.keyError b.1)) = Except.ok c := by
      intro b hb
      obtain ⟨r, r2, hr, hs⟩ := hpre b.1 b.2 hb
      refine ⟨(b.1, r2), ?_⟩
      rw [hr]
      show (r.select b.2).map (fun r2 => (b.1, r2)) = Except.ok (b.1, r2)
      rw [hs]
      rfl
    rw [exceptMap_append_err pre (k, i) post (NpError.keyError k) hok hFa]

/-- Witness for claim C5: selecting only the test split of a two-split
dataset keeps exactly the index-mapping key, with the record selected. -/
theorem claim_C5_witness :
    dsC5.select idxC5 = .ok resC5 ∧
      resC5.data.map Prod.fst = idxC5.map Prod.fst :=
  ⟨by decide, ((claim_C5 dsC5 idxC5).1 resC5 (by decide)).1⟩

end Ntmg
